import Mathlib

/-!
Verification of the cds2types-watch generation driver.

The repository code under study is the `Program` class (run, processFiles,
processFile, createWatcher, loadCdsAndConvertToJSON, generateCode,
writeSource) together with the `replaceExt` utility.  File-system state is
passed explicitly (the set of existing directories, a map from schema path
to compiled schema), Node's `path` module is embedded as pure functions on
POSIX paths, and the collaborator classes that the repository only calls
(CDSParser, Namespace, the formatters) are modelled from the spec where
noted.
-/

/- Node `path.sep`, POSIX flavour. -/
def sep : String := "/"

def dropTrailingChar (c : Char) (l : List Char) : List Char :=
  (l.reverse.dropWhile (fun x => x == c)).reverse

def lastIdxOfAux (c : Char) : List Char → Nat → Option Nat
  | [], _ => none
  | x :: xs, i =>
    match lastIdxOfAux c xs (i + 1) with
    | some j => some j
    | none => if x = c then some i else none

def lastIdxOf (c : Char) (l : List Char) : Option Nat :=
  lastIdxOfAux c l 0

/- Node `path.basename(p)`: trailing separators stripped, then the part of
the path after the last separator. -/
def basename (p : String) : String :=
  let cs := dropTrailingChar '/' p.data
  match lastIdxOf '/' cs with
  | none => String.mk cs
  | some i => String.mk (cs.drop (i + 1))

def strEndsWithStr (s suf : String) : Bool :=
  List.isSuffixOf suf.data s.data

/- Node `path.basename(p, ext)`: as `basename`, with the suffix `ext`
removed when it is a proper suffix of the base name. -/
def basenameExt (p ext : String) : String :=
  let b := basename p
  if 0 < ext.length ∧ ext.length < b.length ∧ strEndsWithStr b ext = true then
    String.mk (b.data.take (b.length - ext.length))
  else b

/- Node `path.extname(p)`: the last-dot suffix of the base name; empty when
the base name has no dot, is a dot file (single leading dot), or is `..`. -/
def extname (p : String) : String :=
  let b := basename p
  if b = ".." then ""
  else
    match lastIdxOf '.' b.data with
    | none => ""
    | some 0 => ""
    | some (Nat.succ i) => String.mk (b.data.drop (i + 1))

/- Node `path.dirname(p)`. -/
def dirname (p : String) : String :=
  if p = "" then "."
  else
    let cs := p.data
    let hasRoot := cs.head? == some '/'
    let t := dropTrailingChar '/' cs
    if t = [] then (if hasRoot then "/" else ".")
    else
      match lastIdxOf '/' t with
      | none => "."
      | some 0 => "/"
      | some (Nat.succ i) =>
        if hasRoot ∧ i = 0 then "//" else String.mk (t.take (i + 1))

/- Split a character list at every occurrence of `c` (the behaviour of
JavaScript `String.prototype.split` with a one-character separator). -/
def splitOnChar (c : Char) : List Char → List (List Char)
  | [] => [[]]
  | x :: xs =>
    let r := splitOnChar c xs
    if x = c then [] :: r
    else
      match r with
      | [] => [[x]]
      | h :: t => (x :: h) :: t

/- One step of Node's `normalizeString` segment processing. -/
def normStep (allowAbove : Bool) (acc : List String) (seg : String) : List String :=
  if seg = "" ∨ seg = "." then acc
  else if seg = ".." then
    match acc with
    | [] => if allowAbove then [".."] else []
    | top :: rest => if top = ".." then (if allowAbove then seg :: acc else acc) else rest
  else seg :: acc

/- Node `path.normalize(p)`, POSIX flavour. -/
def posixNormalize (p : String) : String :=
  if p = "" then "."
  else
    let isAbs := p.data.head? == some '/'
    let trailing := p.data.getLast? == some '/'
    let segs := (splitOnChar '/' p.data).map String.mk
    let stack := (segs.foldl (normStep (!isAbs)) []).reverse
    let body := String.intercalate "/" stack
    let body2 := if body = "" ∧ isAbs = false then "." else body
    let body3 := if body2 ≠ "" ∧ trailing = true then body2 ++ "/" else body2
    if isAbs then "/" ++ body3 else body3

/- Node `path.join(a, b)`, POSIX flavour. -/
def posixJoin (a b : String) : String :=
  let parts := [a, b].filter (fun s => s != "")
  if parts.isEmpty then "." else posixNormalize (String.intercalate "/" parts)

/- src/utils/file.utils.ts, startsWithSingleDot. -/
def startsWithSingleDot (fpath : String) : Bool :=
  let first2chars := String.mk (fpath.data.take 2)
  first2chars == "." ++ sep || first2chars == "./"

/- src/utils/file.utils.ts, replaceExt, on string inputs (the `typeof`
guard lives in `replaceExtVal` below). -/
def replaceExt (npath : String) (ext : String) : String :=
  if npath.length = 0 then npath
  else
    let nFileName := basenameExt npath (extname npath) ++ ext
    let nFilepath := posixJoin (dirname npath) nFileName
    if startsWithSingleDot npath then "." ++ sep ++ nFilepath else nFilepath

/- A JavaScript value as far as `replaceExt` observes it: a string or some
non-string value. -/
inductive JsValue where
  | str (s : String)
  | num (n : Int)
  | boolean (b : Bool)
  | null
deriving DecidableEq

def JsValue.isString : JsValue → Bool
  | JsValue.str _ => true
  | _ => false

/- src/utils/file.utils.ts, replaceExt including the non-string guard. -/
def replaceExtVal : JsValue → String → JsValue
  | JsValue.str s, ext => JsValue.str (replaceExt s ext)
  | v, _ => v

/- ===== Schema data model (src/utils/cds.types.ts and spec §3) ===== -/

inductive DefKind where
  | entity
  | type_
  | enum
  | action
  | service
  | namespace_
deriving DecidableEq, BEq

/- One compiled schema declaration: its kind, its members (field name and
raw type expression) and, for enums, its member list. -/
structure Definition where
  kind : DefKind
  elements : List (String × String) := []
  enumMembers : List (String × String) := []
deriving DecidableEq

/- The compiled schema object: an insertion-ordered mapping from qualified
name to Definition, embedded as an association list. -/
structure ICsn where
  definitions : List (String × Definition)
deriving DecidableEq

/- Parsed CLI options (IOptions).  `folder` is the empty string when the
flag is absent, matching JavaScript falsiness of the missing field; the
source field `prefix` is spelled `prefix_` because `prefix` is a Lean
keyword. -/
structure IOptions where
  cds : String
  output : String
  prefix_ : String
  sort : Bool
  format : Bool
  json : Bool
  folder : String
  watch : Bool
deriving DecidableEq

structure TypeDescriptor where
  qualifiedName : String
  kind : DefKind
deriving DecidableEq, BEq

structure INamespaceDefinition where
  name : String
  definitions : List (String × Definition)
deriving DecidableEq

/- IParsed: the classifier's output, namespace groups, service groups and
the root definitions; each part may be absent. -/
structure IParsed where
  namespaces : Option (List INamespaceDefinition) := none
  services : Option (List INamespaceDefinition) := none
  definitions : Option (List (String × Definition)) := none
deriving DecidableEq

/- The Namespace group object (constructor arguments of the Namespace
class: definitions, interface name marker, optional group name). -/
structure Namespace where
  definitions : List (String × Definition)
  interfacePre : String
  name : Option String := none
deriving DecidableEq

/- The Namespace class constructor keeps its arguments: the group's
definitions, the configured interface name marker and, for named groups,
the group name. -/

/-- Modelled from the spec: `Namespace.getTypes` (the body of
src/types/namespace.ts is not among the sources) — "a getTypes() query
returning all Type Descriptors it contributes". -/
def Namespace.getTypes (ns : Namespace) : List TypeDescriptor :=
  ns.definitions.map (fun kv => { qualifiedName := kv.1, kind := kv.2.kind })

def lastSegment (q : String) : String :=
  match lastIdxOf '.' q.data with
  | none => q
  | some i => String.mk (q.data.drop (i + 1))

/-- Modelled from the spec: the Type Resolver's primitive table (§4.2) —
"primitive maps to one of a fixed table of target primitive equivalents;
unknown primitive names map to an any-equivalent fallback". -/
def primitiveFor (t : String) : String :=
  if t = "cds.String" then "string"
  else if t = "cds.Integer" then "number"
  else if t = "cds.Decimal" then "number"
  else if t = "cds.Boolean" then "boolean"
  else if t = "cds.Date" ∨ t = "cds.DateTime" ∨ t = "cds.Timestamp" then "Date"
  else "any"

/-- Modelled from the spec: member emission — a member whose raw type names
a known Type Descriptor is emitted as a reference by qualified name,
otherwise through the primitive table. -/
def renderMember (types : List TypeDescriptor) (m : String × String) : String :=
  if types.any (fun t => t.qualifiedName == m.2) then
    "    " ++ m.1 ++ ": " ++ m.2 ++ ";\n"
  else
    "    " ++ m.1 ++ ": " ++ primitiveFor m.2 ++ ";\n"

/-- Modelled from the spec: the Type Synthesizer (§4.3) — one
interface-shaped unit per entity/type Definition with the configured name
name marker applied, one enum-shaped unit per enum Definition, emitted
under its own bare name. -/
def renderDefinition (interfacePre : String) (types : List TypeDescriptor)
    (kv : String × Definition) : String :=
  match kv.2.kind with
  | DefKind.enum =>
    "enum " ++ lastSegment kv.1 ++ " \x7b " ++
      String.intercalate ", " (kv.2.enumMembers.map Prod.fst) ++ " \x7d\n"
  | _ =>
    "interface " ++ interfacePre ++ lastSegment kv.1 ++ " \x7b\n" ++
      String.join (kv.2.elements.map (renderMember types)) ++ "\x7d\n"

/-- Modelled from the spec: `Namespace.generateCode` — emits the group's
declaration units, wrapped in a namespace block when the group is named,
given the full cross-group type list for reference resolution. -/
def Namespace.genText (ns : Namespace) (types : List TypeDescriptor) : String :=
  let body := String.join (ns.definitions.map (renderDefinition ns.interfacePre types))
  match ns.name with
  | some n => "namespace " ++ n ++ " \x7b\n" ++ body ++ "\x7d\n"
  | none => body

/- ===== Spec-modelled classifier (CDSParser) ===== -/

def isAncestorOf (p q : String) : Bool :=
  List.isPrefixOf (p ++ ".").data q.data

def longestOwner (groupNames : List String) (q : String) : Option String :=
  groupNames.foldl
    (fun best p =>
      if isAncestorOf p q then
        match best with
        | none => some p
        | some b => if b.length < p.length then some p else some b
      else best)
    none

/-- Modelled from the spec: `CDSParser.parse` (the body of
src/cds.parser.ts is not among the sources) — §4.1: each definition is
assigned to the longest declared namespace/service ancestor of its
qualified name; definitions matching no declared group fall into the
implicit root group; group lists keep the compiler's declaration order. -/
def CDSParser.parse (csn : ICsn) : IParsed :=
  let nsNames := (csn.definitions.filter (fun kv => kv.2.kind == DefKind.namespace_)).map Prod.fst
  let svcNames := (csn.definitions.filter (fun kv => kv.2.kind == DefKind.service)).map Prod.fst
  let groupNames := nsNames ++ svcNames
  let memberDefs := csn.definitions.filter
    (fun kv => !(kv.2.kind == DefKind.namespace_) && !(kv.2.kind == DefKind.service))
  { namespaces := some (nsNames.map (fun n =>
      { name := n
        definitions := memberDefs.filter (fun kv => longestOwner groupNames kv.1 == some n) }))
    services := some (svcNames.map (fun n =>
      { name := n
        definitions := memberDefs.filter (fun kv => longestOwner groupNames kv.1 == some n) }))
    definitions := some (memberDefs.filter (fun kv => longestOwner groupNames kv.1 == none)) }

/- ===== Sorting (Program.loadCdsAndConvertToJSON) ===== -/

/- Model of `String.prototype.localeCompare`: a deterministic total
comparator on strings, embedded as code-point lexicographic comparison. -/
def localeCompare (a b : String) : Int :=
  if a < b then -1 else if b < a then 1 else 0

/- The comparator the source passes to `Array.prototype.sort`: compare the
two entries' keys with localeCompare; an entry sorts no later than another
when the comparator is non-positive. -/
def entryLe (a b : String × Definition) : Prop :=
  localeCompare a.1 b.1 ≤ 0

instance : DecidableRel entryLe := fun a b => by
  unfold entryLe localeCompare
  exact inferInstance

def sortEntries (l : List (String × Definition)) : List (String × Definition) :=
  List.insertionSort entryLe l

/- src/… Program.loadCdsAndConvertToJSON: the cds.load / compile-to-json
step is the identity on the already-compiled schema object; when `sort` is
set, `Object.entries(result.definitions)` is sorted by the key comparator
and reassembled. -/
def Program.loadCdsAndConvertToJSON (csn : ICsn) (sort : Bool) : ICsn :=
  if sort then { definitions := sortEntries csn.definitions } else csn

def kindName : DefKind → String
  | DefKind.entity => "entity"
  | DefKind.type_ => "type"
  | DefKind.enum => "enum"
  | DefKind.action => "action"
  | DefKind.service => "service"
  | DefKind.namespace_ => "namespace"

/- Model of `JSON.stringify` on the compiled schema object. -/
def jsonStringifyDef (kv : String × Definition) : String :=
  "\x22" ++ kv.1 ++ "\x22:\x7b\x22kind\x22:\x22" ++ kindName kv.2.kind ++ "\x22\x7d"

def jsonStringify (csn : ICsn) : String :=
  "\x7b\x22definitions\x22:\x7b" ++
    String.intercalate "," (csn.definitions.map jsonStringifyDef) ++ "\x7d\x7d"

/- ===== Emission driver (Program.generateCode and callers) ===== -/

/- One `namespace.generateCode(source, types)` invocation recorded by the
driver: the group it was made on and the type list passed to it. -/
structure EmitCall where
  group : Namespace
  typesArg : List TypeDescriptor
deriving DecidableEq

def nsGroupsOf (parsed : IParsed) (interfacePre : String) : List Namespace :=
  match parsed.namespaces with
  | some l => l.map (fun n =>
      { definitions := n.definitions, interfacePre := interfacePre, name := some n.name })
  | none => []

def svcGroupsOf (parsed : IParsed) (interfacePre : String) : List Namespace :=
  match parsed.services with
  | some l => l.map (fun s =>
      { definitions := s.definitions, interfacePre := interfacePre, name := some s.name })
  | none => []

def rootGroupsOf (parsed : IParsed) (interfacePre : String) : List Namespace :=
  match parsed.definitions with
  | some d => [{ definitions := d, interfacePre := interfacePre, name := none }]
  | none => []

/- Program.generateCode: build the group list (namespaces, then services,
then the root group), then call generateCode on every group, passing each
call the flattening of getTypes() over all groups. -/
def Program.generateCode (parsed : IParsed) (interfacePre : String) : List EmitCall :=
  let namespaces :=
    nsGroupsOf parsed interfacePre ++ svcGroupsOf parsed interfacePre ++
      rootGroupsOf parsed interfacePre
  namespaces.map (fun ns =>
    { group := ns, typesArg := (namespaces.map Namespace.getTypes).flatten })

/- The single output document: the concatenation, in call order, of the
text each group emits into the shared source file. -/
def Program.generateDocument (parsed : IParsed) (interfacePre : String) : String :=
  String.join ((Program.generateCode parsed interfacePre).map
    (fun c => Namespace.genText c.group c.typesArg))

/-- Modelled from the spec: the NoopFormatter collaborator — returns the
text unchanged. -/
def NoopFormatter.format (text : String) : String := text

/-- Modelled from the spec: the PrettierFormatter collaborator — "given
the final raw generated text, returns formatted text (or returns it
unchanged)"; embedded as guaranteeing a trailing newline. -/
def PrettierFormatter.format (text : String) : String :=
  if text.data.getLast? == some '\n' then text else text ++ "\n"

/- Program.createFormatter: prettier when options.format is set, otherwise
the no-op formatter. -/
def Program.createFormatter (options : IOptions) : String → String :=
  if options.format then PrettierFormatter.format else NoopFormatter.format

/- ===== Writing (Program.writeSource) ===== -/

inductive WriteOutcome where
  | written (path : String) (content : String)
  | exited (code : Int)
deriving DecidableEq

def writtenFiles : WriteOutcome → List (String × String)
  | WriteOutcome.written p c => [(p, c)]
  | WriteOutcome.exited _ => []

/- Program.writeSource: write the file when the parent directory exists,
otherwise report and `process.exit(-1)`.  `fsDirs` is the set of existing
directories. -/
def Program.writeSource (fsDirs : List String) (filepath source : String) : WriteOutcome :=
  let dir := dirname filepath
  if dir ∈ fsDirs then WriteOutcome.written filepath source
  else WriteOutcome.exited (-1)

/- ===== Per-file pipeline (Program.processFile) ===== -/

structure ProcessResult where
  jsonDump : Option (String × String)
  outputText : String
  write : WriteOutcome
deriving DecidableEq

/- Program.processFile: load and (optionally) sort the compiled schema,
optionally dump it as JSON next to the output, parse, generate, format and
write.  `schema` is the compiled schema the external compiler returns for
options.cds. -/
def Program.processFile (fsDirs : List String) (schema : ICsn) (options : IOptions) : ProcessResult :=
  let jsonObj := Program.loadCdsAndConvertToJSON schema options.sort
  let dump := if options.json then some (options.output ++ ".json", jsonStringify jsonObj) else none
  let parsed := CDSParser.parse jsonObj
  let text := Program.generateDocument parsed options.prefix_
  let formattedText := Program.createFormatter options text
  { jsonDump := dump
    outputText := formattedText
    write := Program.writeSource fsDirs options.output formattedText }

/- ===== Folder mode (Program.processFiles) ===== -/

/- One loop body of Program.processFiles: derive the per-file options and
run the pipeline on that file.  `schemas` maps a schema path to the
compiled schema the external compiler yields for it. -/
def Program.runOne (schemas : String → ICsn) (fsDirs : List String) (options : IOptions)
    (filePath : String) : String × ProcessResult :=
  let cdsPath := posixJoin options.folder filePath
  let newOptions := { options with cds := cdsPath, output := replaceExt cdsPath ".ts" }
  (cdsPath, Program.processFile fsDirs (schemas cdsPath) newOptions)

/- Program.processFiles: iterate the directory listing and process every
entry whose extension is ".cds". -/
def Program.processFiles (listing : List String) (schemas : String → ICsn)
    (fsDirs : List String) (options : IOptions) : List (String × ProcessResult) :=
  listing.filterMap (fun filePath =>
    if extname filePath = ".cds" then some (Program.runOne schemas fsDirs options filePath)
    else none)

/- ===== Watch mode (Program.createWatcher) ===== -/

inductive WatchEvent where
  | add (path : String)
  | change (path : String)
deriving DecidableEq

def eventPath : WatchEvent → String
  | WatchEvent.add p => p
  | WatchEvent.change p => p

/- The options a watcher handler rebuilds for a triggering file path:
a copy of the original options with cds and output replaced. -/
def watchNewOptions (options : IOptions) (filePath : String) : IOptions :=
  { options with cds := filePath, output := replaceExt filePath ".ts" }

/- Program.createWatcher as an event-handler table: no watcher at all
without the watch option; a "change" handler always; an "add" handler
only when watching a folder.  The result is the options the triggered
processFile call receives, or none when no handler fires. -/
def Program.handleWatchEvent (options : IOptions) : WatchEvent → Option IOptions
  | WatchEvent.add p =>
    if options.watch = false then none
    else if options.folder ≠ "" then some (watchNewOptions options p) else none
  | WatchEvent.change p =>
    if options.watch = false then none
    else some (watchNewOptions options p)

/- The pipeline run a watcher event triggers. -/
def Program.watcherReRun (schemas : String → ICsn) (fsDirs : List String)
    (options : IOptions) (ev : WatchEvent) : Option ProcessResult :=
  (Program.handleWatchEvent options ev).map
    (fun o => Program.processFile fsDirs (schemas o.cds) o)

example : replaceExt "./test/srv/service.cds" ".ts" = "./test/srv/service.ts" := by rfl
example : replaceExt "model.cds" ".ts" = "model.ts" := by rfl
example : replaceExt "a/b/model.cds" ".ts" = "a/b/model.ts" := by rfl
example : extname ".cds" = "" := by rfl
example : extname "x.cds" = ".cds" := by rfl
example : dirname "a/b.ts" = "a" := by rfl
example : dirname "b.ts" = "." := by rfl
example : posixJoin "./srv" "x.cds" = "srv/x.cds" := by rfl

/- ===== Helper lemmas ===== -/

theorem strMk_append (x y : List Char) :
    String.mk x ++ String.mk y = String.mk (x ++ y) := rfl

theorem strJoin_append (a b : List String) :
    String.join (a ++ b) = String.join a ++ String.join b := by
  rw [String.join_eq, String.join_eq, String.join_eq, strMk_append]
  simp

theorem strAppend_assoc (a b c : String) : a ++ b ++ c = a ++ (b ++ c) := by
  cases a with
  | mk x =>
    cases b with
    | mk y =>
      cases c with
      | mk z =>
        rw [strMk_append, strMk_append, strMk_append, strMk_append, List.append_assoc]

theorem strLength_eq_zero {s : String} (h : s.length = 0) : s = "" := by
  cases s with
  | mk data =>
    simp only [String.length] at h
    rw [List.length_eq_zero] at h
    subst h
    rfl

theorem filterMap_ite {α β : Type} (p : α → Prop) [DecidablePred p] (f : α → β) (l : List α) :
    l.filterMap (fun a => if p a then some (f a) else none) =
      (l.filter (fun a => p a)).map f := by
  induction l with
  | nil => rfl
  | cons x xs ih => by_cases hx : p x <;> simp [hx, ih]

theorem entryLe_iff (a b : String × Definition) : entryLe a b ↔ a.1 ≤ b.1 := by
  unfold entryLe localeCompare
  split_ifs with h1 h2
  · simp [le_of_lt h1]
  · simp only [h2.not_le, iff_false]
    decide
  · have hx : a.1 = b.1 := le_antisymm (not_lt.mp h2) (not_lt.mp h1)
    simp [hx]

instance : IsTotal (String × Definition) entryLe :=
  ⟨fun a b => by
    rw [entryLe_iff, entryLe_iff]
    exact le_total a.1 b.1⟩

instance : IsTrans (String × Definition) entryLe :=
  ⟨fun a b c hab hbc => by
    rw [entryLe_iff] at hab hbc ⊢
    exact le_trans hab hbc⟩

/- The cross-group data the driver recomputes on every loop iteration. -/

def allGroupsOf (parsed : IParsed) (interfacePre : String) : List Namespace :=
  nsGroupsOf parsed interfacePre ++ svcGroupsOf parsed interfacePre ++
    rootGroupsOf parsed interfacePre

def allTypesOf (parsed : IParsed) (interfacePre : String) : List TypeDescriptor :=
  ((allGroupsOf parsed interfacePre).map Namespace.getTypes).flatten

def groupsDocument (groups : List Namespace) (types : List TypeDescriptor) : String :=
  String.join (groups.map (fun g => Namespace.genText g types))

/- ===== Sample inputs ===== -/

def sampleDef : Definition :=
  { kind := DefKind.entity, elements := [("title", "cds.String")] }

def sampleCsn : ICsn :=
  { definitions :=
      [("ns", { kind := DefKind.namespace_ }),
       ("ns.Ticket", sampleDef),
       ("Status", { kind := DefKind.enum, enumMembers := [("Open", "0"), ("Closed", "1")] })] }

def sampleParsed : IParsed :=
  { namespaces := some [{ name := "ns", definitions := [("ns.Foo", sampleDef)] }]
    services := none
    definitions := some [("Bar", sampleDef)] }

def sampleOptions : IOptions :=
  { cds := "./srv/service.cds", output := "./srv/service.ts", prefix_ := "I",
    sort := true, format := true, json := true, folder := "", watch := false }

def folderOptions : IOptions :=
  { cds := "", output := "", prefix_ := "I", sort := false, format := false,
    json := false, folder := "./srv", watch := false }

def singleFileWatchOptions : IOptions :=
  { cds := "model.cds", output := "model.ts", prefix_ := "", sort := false,
    format := false, json := false, folder := "", watch := true }

def folderWatchOptions : IOptions :=
  { cds := "", output := "", prefix_ := "I", sort := false, format := false,
    json := false, folder := "./srv", watch := true }

/- ===== Claims ===== -/

/-- C1: the emission driver serializes all declaration units of one schema
file into a single output document in the order: namespace groups (in the
compiler's declaration order), then service groups, then the root-level
definitions carrying no namespace name — namespace-group output is
appended before any service-group output, which is appended before
root-group output. -/
theorem C1_generateCode_emission_order (parsed : IParsed) (interfacePre : String) :
    Program.generateDocument parsed interfacePre =
      groupsDocument (nsGroupsOf parsed interfacePre) (allTypesOf parsed interfacePre) ++
      groupsDocument (svcGroupsOf parsed interfacePre) (allTypesOf parsed interfacePre) ++
      groupsDocument (rootGroupsOf parsed interfacePre) (allTypesOf parsed interfacePre) := by
  unfold Program.generateDocument Program.generateCode groupsDocument allTypesOf allGroupsOf
  simp [List.map_append, strJoin_append, Function.comp_def, strAppend_assoc]

/-- C2: every `generateCode` call a group receives is passed the full
cross-group type list, the flattening of `getTypes()` over all groups of
the file, not only the group's own types. -/
theorem C2_full_type_list (parsed : IParsed) (interfacePre : String) (call : EmitCall)
    (h : call ∈ Program.generateCode parsed interfacePre) :
    call.typesArg = allTypesOf parsed interfacePre := by
  unfold Program.generateCode at h
  simp only [List.mem_map] at h
  obtain ⟨g, _, rfl⟩ := h
  rfl

theorem C2_full_type_list_witness :
    ({ group := { definitions := [("Bar", sampleDef)], interfacePre := "I", name := none },
       typesArg := [{ qualifiedName := "ns.Foo", kind := DefKind.entity },
                    { qualifiedName := "Bar", kind := DefKind.entity }] } : EmitCall).typesArg
      = allTypesOf sampleParsed "I" :=
  C2_full_type_list sampleParsed "I" _ (by decide)

/-- C3: with the sort option enabled, the definitions mapping is re-ordered
so that its entries are sorted by the key comparator (localeCompare of the
two entries' qualified names) while remaining a permutation of the input
entries; with the option disabled the mapping is untouched. -/
theorem C3_sort_reorders (csn : ICsn) :
    List.Perm (Program.loadCdsAndConvertToJSON csn true).definitions csn.definitions
    ∧ List.Pairwise entryLe (Program.loadCdsAndConvertToJSON csn true).definitions
    ∧ Program.loadCdsAndConvertToJSON csn false = csn := by
  refine ⟨?_, ?_, rfl⟩
  · simpa [Program.loadCdsAndConvertToJSON, sortEntries] using
      List.perm_insertionSort entryLe csn.definitions
  · simpa [Program.loadCdsAndConvertToJSON, sortEntries, List.Sorted] using
      List.sorted_insertionSort entryLe csn.definitions

/-- C4: the pipeline is deterministic — for a fixed compiled schema, fixed
file-system state and fixed options, two runs of processFile produce the
same result, byte-identical output text included. -/
theorem C4_determinism (fsDirs : List String) (schema : ICsn) (options : IOptions)
    (r₁ r₂ : ProcessResult)
    (h₁ : Program.processFile fsDirs schema options = r₁)
    (h₂ : Program.processFile fsDirs schema options = r₂) : r₁ = r₂ :=
  h₁.symm.trans h₂

theorem C4_determinism_witness :
    Program.processFile ["./srv"] sampleCsn sampleOptions =
      Program.processFile ["./srv"] sampleCsn sampleOptions :=
  C4_determinism ["./srv"] sampleCsn sampleOptions _ _ rfl rfl

/-- C5: folder mode processes exactly the listing entries with extension
".cds", each in its own pipeline run whose cds input is the joined
folder/file path and whose output is that path with the extension replaced
by ".ts"; a run's result depends only on that file's compiled schema. -/
theorem C5_folder_mode (listing : List String) (schemas schemas2 : String → ICsn)
    (fsDirs : List String) (options : IOptions) (f : String)
    (h : schemas (posixJoin options.folder f) = schemas2 (posixJoin options.folder f)) :
    Program.processFiles listing schemas fsDirs options =
      (listing.filter (fun g => extname g = ".cds")).map (Program.runOne schemas fsDirs options)
    ∧ Program.runOne schemas fsDirs options f = Program.runOne schemas2 fsDirs options f
    ∧ (Program.runOne schemas fsDirs options f).2 =
        Program.processFile fsDirs (schemas (posixJoin options.folder f))
          { options with cds := posixJoin options.folder f,
                         output := replaceExt (posixJoin options.folder f) ".ts" } := by
  refine ⟨?_, ?_, rfl⟩
  · unfold Program.processFiles
    exact filterMap_ite (fun g => extname g = ".cds") _ listing
  · simp only [Program.runOne, h]

theorem C5_folder_mode_witness :
    Program.runOne (fun _ => sampleCsn) ["."] folderOptions "service.cds" =
      Program.runOne (fun _ => sampleCsn) ["."] folderOptions "service.cds" :=
  (C5_folder_mode ["service.cds"] (fun _ => sampleCsn) (fun _ => sampleCsn) ["."]
    folderOptions "service.cds" rfl).2.1

/-- C6: writing fails fatally exactly when the output's parent directory
does not exist: then nothing is written and the process exits with the
non-zero code -1; when the directory exists the formatted source is
written to the output path and no exit is triggered. -/
theorem C6_writeSource_fatal_iff (fsDirs : List String) (filepath source : String)
    (schema : ICsn) (options : IOptions) :
    (dirname filepath ∉ fsDirs →
      Program.writeSource fsDirs filepath source = WriteOutcome.exited (-1)
      ∧ writtenFiles (Program.writeSource fsDirs filepath source) = []
      ∧ (-1 : Int) ≠ 0)
    ∧ (dirname filepath ∈ fsDirs →
      Program.writeSource fsDirs filepath source = WriteOutcome.written filepath source)
    ∧ (Program.processFile fsDirs schema options).write =
        Program.writeSource fsDirs options.output
          (Program.processFile fsDirs schema options).outputText := by
  refine ⟨fun hnot => ?_, fun hmem => ?_, rfl⟩
  · unfold Program.writeSource
    rw [if_neg hnot]
    exact ⟨rfl, rfl, by decide⟩
  · unfold Program.writeSource
    rw [if_pos hmem]

theorem C6_writeSource_fatal_iff_witness :
    Program.writeSource ["a"] "a/x.ts" "txt" = WriteOutcome.written "a/x.ts" "txt"
    ∧ Program.writeSource ["a"] "b/x.ts" "txt" = WriteOutcome.exited (-1) :=
  ⟨(C6_writeSource_fatal_iff ["a"] "a/x.ts" "txt" sampleCsn sampleOptions).2.1 (by decide),
   ((C6_writeSource_fatal_iff ["a"] "b/x.ts" "txt" sampleCsn sampleOptions).1 (by decide)).1⟩

/-- C7 counterexample: with watch configured on a single file (no folder),
an "add" event has no handler — the pipeline is not re-run — refuting the
claim that every "added" event triggers a re-run regardless of whether
watch was configured on a single file or a folder. -/
theorem C7_add_event_counterexample :
    Program.handleWatchEvent singleFileWatchOptions (WatchEvent.add "new.cds") = none
    ∧ Program.watcherReRun (fun _ => sampleCsn) ["."] singleFileWatchOptions
        (WatchEvent.add "new.cds") = none :=
  ⟨rfl, rfl⟩

/-- C7 (amended): in watch mode, every "changed" event re-runs the full
pipeline for the triggering file; an "added" event re-runs it exactly when
watch was configured on a folder, and is ignored in single-file mode. -/
theorem C7_watch_rerun_amended (schemas : String → ICsn) (fsDirs : List String)
    (options : IOptions) (p : String) (hw : options.watch = true) :
    Program.watcherReRun schemas fsDirs options (WatchEvent.change p) =
      some (Program.processFile fsDirs (schemas p) (watchNewOptions options p))
    ∧ (options.folder ≠ "" →
        Program.watcherReRun schemas fsDirs options (WatchEvent.add p) =
          some (Program.processFile fsDirs (schemas p) (watchNewOptions options p)))
    ∧ (options.folder = "" →
        Program.watcherReRun schemas fsDirs options (WatchEvent.add p) = none) := by
  unfold Program.watcherReRun Program.handleWatchEvent
  refine ⟨?_, fun hf => ?_, fun hf => ?_⟩
  · simp [hw, watchNewOptions]
  · simp [hw, hf, watchNewOptions]
  · simp [hw, hf]

theorem C7_watch_rerun_amended_witness :
    Program.watcherReRun (fun _ => sampleCsn) ["."] folderWatchOptions
        (WatchEvent.change "x.cds") =
      some (Program.processFile ["."] sampleCsn (watchNewOptions folderWatchOptions "x.cds")) :=
  (C7_watch_rerun_amended (fun _ => sampleCsn) ["."] folderWatchOptions "x.cds" rfl).1

/-- C8: the options a watcher-triggered run receives differ from the
original run's options only in cds (the event's file path) and output
(that path with its extension replaced by ".ts"); every other option field
is unchanged. -/
theorem C8_rerun_options_frame (options : IOptions) (ev : WatchEvent) (o2 : IOptions)
    (h : Program.handleWatchEvent options ev = some o2) :
    o2.cds = eventPath ev ∧ o2.output = replaceExt (eventPath ev) ".ts"
    ∧ o2.prefix_ = options.prefix_ ∧ o2.sort = options.sort
    ∧ o2.format = options.format ∧ o2.json = options.json
    ∧ o2.folder = options.folder ∧ o2.watch = options.watch := by
  cases ev <;> unfold Program.handleWatchEvent at h <;> split_ifs at h <;>
    simp_all [watchNewOptions, eventPath] <;> subst h <;> simp [watchNewOptions]

theorem C8_rerun_options_frame_witness :
    (watchNewOptions folderWatchOptions "x.cds").cds = eventPath (WatchEvent.change "x.cds")
    ∧ (watchNewOptions folderWatchOptions "x.cds").output =
        replaceExt (eventPath (WatchEvent.change "x.cds")) ".ts"
    ∧ (watchNewOptions folderWatchOptions "x.cds").prefix_ = folderWatchOptions.prefix_
    ∧ (watchNewOptions folderWatchOptions "x.cds").sort = folderWatchOptions.sort
    ∧ (watchNewOptions folderWatchOptions "x.cds").format = folderWatchOptions.format
    ∧ (watchNewOptions folderWatchOptions "x.cds").json = folderWatchOptions.json
    ∧ (watchNewOptions folderWatchOptions "x.cds").folder = folderWatchOptions.folder
    ∧ (watchNewOptions folderWatchOptions "x.cds").watch = folderWatchOptions.watch :=
  C8_rerun_options_frame folderWatchOptions (WatchEvent.change "x.cds")
    (watchNewOptions folderWatchOptions "x.cds") rfl

/-- C9: the JSON debug dump of the raw compiled schema is produced exactly
when the json option is set, and then it is the output path with ".json"
appended; otherwise no such file is written. -/
theorem C9_json_dump_iff (fsDirs : List String) (schema : ICsn) (options : IOptions) :
    ((∃ d, (Program.processFile fsDirs schema options).jsonDump = some d) ↔ options.json = true)
    ∧ (Program.processFile fsDirs schema options).jsonDump =
        (if options.json then
          some (options.output ++ ".json",
            jsonStringify (Program.loadCdsAndConvertToJSON schema options.sort))
         else none) := by
  unfold Program.processFile
  refine ⟨?_, rfl⟩
  by_cases h : options.json = true <;> simp [h]

/-- C10: replaceExt preserves a relative-path marker — on a non-empty
string starting with "./" (single dot then the path separator) the result
again starts with "." followed by the separator — and returns non-string
or empty-string inputs unchanged. -/
theorem C10_replaceExt_relative (p ext : String) (v : JsValue)
    (hp : p ≠ "") (hd : startsWithSingleDot p = true) (hv : v.isString = false) :
    (∃ rest, replaceExt p ext = "." ++ sep ++ rest)
    ∧ replaceExtVal v ext = v
    ∧ (∀ e, replaceExtVal (JsValue.str "") e = JsValue.str "") := by
  refine ⟨?_, ?_, fun e => rfl⟩
  · have h0 : (p.length = 0) = False :=
      eq_false (fun hh => hp (strLength_eq_zero hh))
    refine ⟨posixJoin (dirname p) (basenameExt p (extname p) ++ ext), ?_⟩
    simp [replaceExt, h0, hd]
  · cases v <;> simp_all [replaceExtVal, JsValue.isString]

theorem C10_replaceExt_relative_witness :
    (∃ rest, replaceExt "./a.cds" ".ts" = "." ++ sep ++ rest)
    ∧ replaceExtVal (JsValue.num 0) ".ts" = JsValue.num 0
    ∧ (∀ e, replaceExtVal (JsValue.str "") e = JsValue.str "") :=
  C10_replaceExt_relative "./a.cds" ".ts" (JsValue.num 0) (by decide) (by rfl) (by rfl)
